import Mathlib

/-!
Shallow embedding of the direct-form complex FIR filter of
`src/filter/direct_fir.c` (scalar `_DIRECT_FIR_IMPLEMENTATION` variant,
which is the one compiled by default), together with proofs about its
behaviour.

Machine integers are modelled as `Int`/`Nat` with explicit reductions:
`wrap32` is two's-complement `int32_t` arithmetic, `toInt16` is the
narrowing conversion to `int16_t`, and `add64`/`sub64` are `size_t`
(64-bit unsigned) addition and subtraction.

A C execution that aborts (a `TSL_BUG_ON` firing, a NULL-pointer
dereference) or fails to terminate is modelled as `none`.
-/

/-- Two's-complement reduction of an integer into the `int32_t` range. -/
def wrap32 (x : Int) : Int := (x + 2 ^ 31) % 2 ^ 32 - 2 ^ 31

/-- Narrowing conversion of an integer to the `int16_t` range, as C's
implementation-defined (two's-complement) conversion performs it. -/
def toInt16 (x : Int) : Int := (x + 2 ^ 15) % 2 ^ 16 - 2 ^ 15

/-- Wrapping 64-bit (`size_t`) addition. -/
def add64 (a b : Nat) : Nat := (a + b) % 2 ^ 64

/-- Wrapping 64-bit (`size_t`) subtraction. -/
def sub64 (a b : Nat) : Nat := (a + 2 ^ 64 - b % 2 ^ 64) % 2 ^ 64

/-- Modelled from the spec: `round_q30_q15` lives in `filter/complex.h`,
which is not part of the sources under verification.  The spec fixes the
Q.30 to Q.15 conversion as round-half-up via `(x + 2^14) >> 15` on a
32-bit signed value; the shift is an arithmetic right shift, i.e. floor
division by `2^15`. -/
def round_q30_q15 (x : Int) : Int := Int.fdiv (wrap32 (x + 2 ^ 14)) (2 ^ 15)

/-- Modelled from the spec: `cmul_q15_q30` lives in `filter/complex.h`,
which is not part of the sources under verification.  The spec defines
the complex product of Q.15 factors as `p_re = c_re*s_re - c_im*s_im`,
`p_im = c_re*s_im + c_im*s_re`, the products being 32-bit Q.30 values. -/
def cmul_q15_q30 (a_re a_im b_re b_im : Int) : Int × Int :=
  (wrap32 (a_re * b_re - a_im * b_im), wrap32 (a_re * b_im + a_im * b_re))

/-- Modelled from the spec: `cmul_q15_q15` lives in `filter/complex.h`,
which is not part of the sources under verification.  Per spec section
4.3 step 5 it is the Q.15 complex multiply producing Q.30 and rounding
each component back to Q.15. -/
def cmul_q15_q15 (a_re a_im b_re b_im : Int) : Int × Int :=
  let p := cmul_q15_q30 a_re a_im b_re b_im
  (round_q30_q15 p.1, round_q30_q15 p.2)

/-- Modelled from the spec: `struct sample_buf` is an external type
(`filter/sample_buf.h`, not under the sources being verified).  The spec
describes it as a count `nr_samples` of complex samples together with a
contiguous sequence of `2 * nr_samples` interleaved 16-bit values; we
store the data as a list of (re, im) pairs, so `nr_samples` is the list
length.  `addr` models the buffer's address, used for the
pointer-identity tests in `direct_fir_push_sample_buf`. -/
structure SampleBuf where
  addr : Nat
  data : List (Int × Int)
  deriving DecidableEq

/-- Number of complex samples held by the buffer (`buf->nr_samples`). -/
def SampleBuf.nrSamples (b : SampleBuf) : Nat := b.data.length

/-- State of `struct direct_fir` (see `filter/direct_fir.h` usage in
`direct_fir.c`).  Buffer slots hold the buffer contents directly; a C
NULL pointer is `none`. -/
structure DirectFir where
  nr_coeffs : Nat
  fir_real_coeff : List Int
  fir_imag_coeff : List Int
  decimate_factor : Nat
  sb_active : Option SampleBuf
  sb_next : Option SampleBuf
  sample_offset : Nat
  nr_samples : Nat
  rot_phase_re : Int
  rot_phase_im : Int
  rot_phase_incr_re : Int
  rot_phase_incr_im : Int
  rot_counter : Nat
  deriving DecidableEq

/-- Result codes of the TSL `aresult_t` values that `direct_fir.c`
produces: `A_OK`, `A_E_BUSY`, `A_E_DONE`, `A_E_INVAL`. -/
inductive Aresult where
  | ok
  | eBusy
  | eDone
  | eInval
  deriving DecidableEq

/-- Outcome of one `_direct_fir_process_sample` call that returned:
either the `A_E_DONE` exhaustion signal, or `A_OK` with the complex
output sample written through `psample_real` / `psample_imag`. -/
inductive KernelRes where
  | done
  | out (re im : Int)
  deriving DecidableEq

/-- One step of the inner `for` loop of `_direct_fir_process_sample`
(lines 366-385): guard the two `TSL_BUG_ON`s, load the sample and the
coefficients, complex-multiply with `cmul_q15_q30` and accumulate into
the 32-bit accumulators. -/
def firStep (fir : DirectFir) (cur : SampleBuf) (buf_offset start_coeff : Nat)
    (acc? : Option (Int × Int)) (i : Nat) : Option (Int × Int) :=
  acc?.bind fun acc =>
    if fir.nr_coeffs ≤ i + start_coeff then none
    else if cur.nrSamples ≤ add64 i buf_offset then none
    else
      let s := cur.data.getD (add64 buf_offset i) (0, 0)
      let c_re := fir.fir_real_coeff.getD (i + start_coeff) 0
      let c_im := fir.fir_imag_coeff.getD (i + start_coeff) 0
      let f := cmul_q15_q30 c_re c_im s.1 s.2
      some (wrap32 (acc.1 + f.1), wrap32 (acc.2 + f.2))

/-- The inner `for` loop of `_direct_fir_process_sample`, iterating
`firStep` for `i = 0, ..., n-1`. -/
def firInner (fir : DirectFir) (cur : SampleBuf) (buf_offset start_coeff n : Nat)
    (acc : Int × Int) : Option (Int × Int) :=
  (List.range n).foldl (firStep fir cur buf_offset start_coeff) (some acc)

/-- The outer `do`/`while` loop of `_direct_fir_process_sample` (lines
356-391).  `fuel` bounds the number of iterations; the kernel passes
`fir.nr_coeffs + 2`, which exceeds the iteration count of every
terminating C execution of the loop, so running out of fuel corresponds
to C-level non-termination (re-reading an empty `sb_next` forever) and
yields `none`.  Dereferencing an absent buffer also yields `none`. -/
def firLoop (fir : DirectFir) :
    Nat → Int × Int → Nat → Option SampleBuf → Nat → Option (Int × Int)
  | 0, _, _, _, _ => none
  | _ + 1, _, _, none, _ => none
  | fuel + 1, acc, coeffs_remain, some cur, buf_offset =>
    let nr_samples_in := min (sub64 cur.nrSamples buf_offset) coeffs_remain
    let start_coeff := fir.nr_coeffs - coeffs_remain
    match firInner fir cur buf_offset start_coeff nr_samples_in acc with
    | none => none
    | some acc' =>
      if coeffs_remain - nr_samples_in = 0 then some acc'
      else firLoop fir fuel acc' (coeffs_remain - nr_samples_in) fir.sb_next 0

/-- Cursor advance of `_direct_fir_process_sample` (lines 393-401).
The retire test is the scalar variant's strict `>`.  On retirement the
code first overwrites `fir->sb_active` with `fir->sb_next` and then
reads `fir->sb_active->nr_samples` to compute the new offset, so it
subtracts the newly promoted buffer's sample count - and dereferences
NULL (here: `none`) when no next buffer is queued. -/
def advanceCursor (fir : DirectFir) (active : SampleBuf) : Option DirectFir :=
  if active.nrSamples < add64 fir.sample_offset fir.decimate_factor then
    match fir.sb_next with
    | none => none
    | some nxt =>
      some { fir with
        sb_active := some nxt
        sb_next := none
        sample_offset := sub64 (add64 fir.sample_offset fir.decimate_factor) nxt.nrSamples }
  else
    some { fir with sample_offset := add64 fir.sample_offset fir.decimate_factor }

/-- Embedding of `_direct_fir_apply_derotation` (lines 151-172): rotate
the rounded accumulators by the current phase with `cmul_q15_q30`,
advance the phase with `cmul_q15_q15`, bump `rot_counter`. -/
def _direct_fir_apply_derotation (fir : DirectFir) (acc_re_in acc_im_in : Int) :
    DirectFir × Int × Int :=
  let out := cmul_q15_q30 acc_re_in acc_im_in fir.rot_phase_re fir.rot_phase_im
  let ph := cmul_q15_q15 fir.rot_phase_re fir.rot_phase_im
      fir.rot_phase_incr_re fir.rot_phase_incr_im
  ({ fir with
      rot_phase_re := ph.1
      rot_phase_im := ph.2
      rot_counter := fir.rot_counter + 1 },
    out.1, out.2)

/-- Embedding of the scalar `_direct_fir_process_sample` (lines
328-417): span check, convolution loop, cursor advance, queue-count
decrement, optional derotation, and the Q.30 to Q.15 rounding of the
output pair (narrowed to `int16_t` by the store through
`psample_real` / `psample_imag`). -/
def _direct_fir_process_sample (fir : DirectFir) : Option (DirectFir × KernelRes) :=
  match fir.sb_active with
  | none => none
  | some active =>
    if active.nrSamples < add64 fir.sample_offset fir.nr_coeffs ∧ fir.sb_next = none then
      some (fir, KernelRes.done)
    else
      match firLoop fir (fir.nr_coeffs + 2) (0, 0) fir.nr_coeffs (some active)
          fir.sample_offset with
      | none => none
      | some acc =>
        match advanceCursor fir active with
        | none => none
        | some fir1 =>
          let fir2 := { fir1 with nr_samples := sub64 fir1.nr_samples fir.decimate_factor }
          if fir.rot_phase_incr_re = 0 ∧ fir.rot_phase_incr_im = 0 then
            some (fir2, KernelRes.out (toInt16 (round_q30_q15 acc.1))
              (toInt16 (round_q30_q15 acc.2)))
          else
            let d := _direct_fir_apply_derotation fir2 (round_q30_q15 acc.1)
              (round_q30_q15 acc.2)
            some (d.1, KernelRes.out (toInt16 (round_q30_q15 d.2.1))
              (toInt16 (round_q30_q15 d.2.2)))

/-- Embedding of `direct_fir_push_sample_buf` (lines 118-146).  The two
`TSL_BUG_ON` pointer-identity checks compare addresses; a firing
`TSL_BUG_ON` aborts the process (`none`). -/
def direct_fir_push_sample_buf (fir : DirectFir) (buf : SampleBuf) :
    Option (DirectFir × Aresult) :=
  if fir.sb_active.map SampleBuf.addr = some buf.addr then none
  else if fir.sb_next.map SampleBuf.addr = some buf.addr then none
  else
    match fir.sb_active with
    | none =>
      match fir.sb_next with
      | some _ => none
      | none =>
        some ({ fir with
          sb_active := some buf
          nr_samples := add64 fir.nr_samples buf.nrSamples }, Aresult.ok)
    | some _ =>
      match fir.sb_next with
      | none =>
        some ({ fir with
          sb_next := some buf
          nr_samples := add64 fir.nr_samples buf.nrSamples }, Aresult.ok)
      | some _ => some (fir, Aresult.eBusy)

/-- Embedding of `direct_fir_cleanup` (lines 89-116).  The returned list
is the sequence of buffer addresses whose reference count the call
decremented via `sample_buf_decref`.  Tap storage release (`TFREE`,
from `tsl/safe_alloc.h`, outside the verified sources) is modelled per
the spec's "releases tap storage" as emptying the coefficient lists. -/
def direct_fir_cleanup (fir : DirectFir) : DirectFir × List Nat :=
  let rel_a : List Nat := match fir.sb_active with | some a => [a.addr] | none => []
  let rel_n : List Nat := match fir.sb_next with | some b => [b.addr] | none => []
  ({ fir with
      fir_real_coeff := []
      fir_imag_coeff := []
      sb_active := none
      sb_next := none
      decimate_factor := 0 }, rel_a ++ rel_n)

/-- The loop of `direct_fir_process` (lines 442-447): call the kernel up
to `n` times, stop at the first `A_E_DONE`, abort (`none`) if a kernel
call aborts.  Returns the final state and the samples written. -/
def processLoop : Nat → DirectFir → Option (DirectFir × List (Int × Int))
  | 0, fir => some (fir, [])
  | n + 1, fir =>
    match _direct_fir_process_sample fir with
    | none => none
    | some (fir', KernelRes.done) => some (fir', [])
    | some (fir', KernelRes.out re im) =>
      (processLoop n fir').map fun r => (r.1, (re, im) :: r.2)

/-- Embedding of `direct_fir_process` (lines 422-453).  A zero request
fails the `TSL_ASSERT_ARG(0 != nr_out_samples)` check; per the spec's
error taxonomy (`tsl/assert.h` is outside the verified sources) the
assertion returns the `InvalidArgument` error without mutating
anything.  `TSL_BUG_ON(0 == fir->nr_coeffs)` aborts.  The number of
samples generated is the length of the returned list. -/
def direct_fir_process (fir : DirectFir) (nr_out_samples : Nat) :
    Option (DirectFir × List (Int × Int) × Aresult) :=
  if nr_out_samples = 0 then some (fir, [], Aresult.eInval)
  else if fir.nr_coeffs = 0 then none
  else if fir.sb_active = none ∧ fir.sb_next = none then some (fir, [], Aresult.ok)
  else (processLoop nr_out_samples fir).map fun r => (r.1, r.2, Aresult.ok)

/-- Embedding of `direct_fir_init` (lines 44-87) for the
`derotate = false` path (the `derotate = true` path computes a complex
exponential in double precision, which no claim depends on).  The
`nr_coeffs` argument of the C function equals the length of the copied
coefficient arrays per its contract. -/
def direct_fir_init (fir_real_coeff fir_imag_coeff : List Int)
    (decimation_factor : Nat) : DirectFir :=
  { nr_coeffs := fir_real_coeff.length
    fir_real_coeff := fir_real_coeff
    fir_imag_coeff := fir_imag_coeff
    decimate_factor := decimation_factor
    sb_active := none
    sb_next := none
    sample_offset := 0
    nr_samples := 0
    rot_phase_re := 0
    rot_phase_im := 0
    rot_phase_incr_re := 0
    rot_phase_incr_im := 0
    rot_counter := 0 }

/-- Number of complex samples in the next slot, zero when it is empty. -/
def nextLen (fir : DirectFir) : Nat :=
  match fir.sb_next with
  | some b => b.nrSamples
  | none => 0

/-- The true number of complex samples remaining across both slots, as
the spec's data model defines `nr_samples_queued`:
`(active.nr_samples - sample_offset) + next.nr_samples`. -/
def queuedSamples (fir : DirectFir) : Nat :=
  (match fir.sb_active with
   | some a => a.nrSamples - fir.sample_offset
   | none => 0) + nextLen fir

/-- Decidable form of the spec's cursor invariant: when an active buffer
is held, `0 ≤ sample_offset < active.nr_samples`; when none is held,
`sample_offset = 0`. -/
def cursorOk (fir : DirectFir) : Bool :=
  match fir.sb_active with
  | some a => fir.sample_offset < a.nrSamples
  | none => fir.sample_offset = 0

/-- The stream of input samples visible to one kernel call, written
following the spec: index `j` reads the active buffer for
`j < active.nr_samples` and the next buffer afterwards. -/
def specStreamSample (a : SampleBuf) (nxt : Option SampleBuf) (j : Nat) : Int × Int :=
  if j < a.nrSamples then a.data.getD j (0, 0)
  else
    match nxt with
    | some b => b.data.getD (j - a.nrSamples) (0, 0)
    | none => (0, 0)

/-- One accumulation step of the spec-side convolution at tap `k`:
complex-multiply tap `k` against stream sample `off + k` and add the
Q.30 product into the wrapping 32-bit accumulators. -/
def specConvStep (fir : DirectFir) (a : SampleBuf) (nxt : Option SampleBuf)
    (off : Nat) (acc : Int × Int) (k : Nat) : Int × Int :=
  let s := specStreamSample a nxt (off + k)
  let f := cmul_q15_q30 (fir.fir_real_coeff.getD k 0) (fir.fir_imag_coeff.getD k 0) s.1 s.2
  (wrap32 (acc.1 + f.1), wrap32 (acc.2 + f.2))

/-- Spec-side convolution, written following the claim's words: the `N`
taps convolved against the `N` consecutive input samples starting at
the cursor, products accumulated into wrapping 32-bit accumulators. -/
def specConvolution (fir : DirectFir) (a : SampleBuf) (nxt : Option SampleBuf)
    (off : Nat) : Int × Int :=
  (List.range fir.nr_coeffs).foldl (specConvStep fir a nxt off) (0, 0)

/-- The kernel's inner loop without its bounds guards: iterating the
accumulation step over `i = 0, ..., n-1` directly.  `firInner` agrees
with it whenever every access is in bounds. -/
def pureInner (fir : DirectFir) (cur : SampleBuf) (buf_offset start_coeff n : Nat)
    (acc : Int × Int) : Int × Int :=
  (List.range n).foldl (fun acc i =>
    let s := cur.data.getD (buf_offset + i) (0, 0)
    let f := cmul_q15_q30 (fir.fir_real_coeff.getD (i + start_coeff) 0)
      (fir.fir_imag_coeff.getD (i + start_coeff) 0) s.1 s.2
    (wrap32 (acc.1 + f.1), wrap32 (acc.2 + f.2))) acc

/-- Concrete filter state: five taps, decimation one, a 2-sample active
buffer at offset zero and a 1-sample next buffer, so only three of the
five samples a kernel pass needs are queued. -/
def firC2 : DirectFir :=
  { direct_fir_init [32767, 0, 0, 0, 0] [0, 0, 0, 0, 0] 1 with
    sb_active := some ⟨1, [(1, 0), (2, 0)]⟩
    sb_next := some ⟨2, [(3, 0)]⟩
    nr_samples := 3 }

/-- Active buffer of the exactly-fitting retirement scenario. -/
def bufC3A : SampleBuf := ⟨1, [(1, 0), (2, 0)]⟩

/-- Next buffer of the exactly-fitting retirement scenario. -/
def bufC3B : SampleBuf := ⟨2, [(3, 0), (4, 0)]⟩

/-- Concrete filter state for the exactly-fitting retirement case: one
tap, decimation two, cursor at zero of a 2-sample active buffer with a
next buffer queued, so the advanced cursor lands exactly on the end of
the active buffer. -/
def firC3 : DirectFir :=
  { direct_fir_init [16384] [0] 2 with
    sb_active := some bufC3A
    sb_next := some bufC3B
    nr_samples := 4 }

/-- Active buffer (3 samples) of the wrong-subtrahend scenario. -/
def bufC4A : SampleBuf := ⟨1, [(1, 0), (2, 0), (3, 0)]⟩

/-- Concrete filter state for the cursor-advance subtrahend: one tap,
decimation four, a 3-sample active buffer and a 5-sample next buffer;
retiring must rebase the cursor by the retired buffer's 3 samples. -/
def firC4 : DirectFir :=
  { direct_fir_init [32767] [0] 4 with
    sb_active := some bufC4A
    sb_next := some ⟨2, [(4, 0), (5, 0), (6, 0), (7, 0), (8, 0)]⟩
    nr_samples := 8 }

/-- Concrete filter state with one tap, decimation five and a single
3-sample active buffer: three samples are queued (enough for `N = 1`),
but the advanced cursor overruns the buffer with no next queued. -/
def firC1x : DirectFir :=
  { direct_fir_init [32767] [0] 5 with
    sb_active := some ⟨1, [(100, 0), (200, 0), (300, 0)]⟩
    nr_samples := 3 }

/-- Concrete two-buffer straddle state: taps (0.5, 0.5), decimation one,
cursor on the last sample of the active buffer, a full next buffer. -/
def firW1 : DirectFir :=
  { direct_fir_init [16384, 16384] [0, 0] 1 with
    sb_active := some ⟨1, [(2, 0), (4, 0)]⟩
    sb_next := some ⟨2, [(6, 0), (8, 0)]⟩
    sample_offset := 1
    nr_samples := 3 }

/-- Concrete single-buffer state: taps (0.5, 0.5), decimation one, a
3-sample active buffer at offset zero, no next buffer. -/
def firW2 : DirectFir :=
  { direct_fir_init [16384, 16384] [0, 0] 1 with
    sb_active := some ⟨1, [(2, 0), (4, 0), (6, 0)]⟩
    nr_samples := 3 }

/-- Concrete filter state with both buffer slots occupied. -/
def firW6 : DirectFir :=
  { direct_fir_init [1] [0] 1 with
    sb_active := some ⟨1, [(0, 0)]⟩
    sb_next := some ⟨2, [(0, 0)]⟩
    nr_samples := 2 }

/-- A buffer distinct (by address) from the ones `firW6` holds. -/
def bufW6 : SampleBuf := ⟨3, [(5, 5)]⟩

/-- Concrete one-tap state holding a single one-sample buffer. -/
def firW7 : DirectFir :=
  { direct_fir_init [0] [0] 1 with
    sb_active := some ⟨1, [(0, 0)]⟩
    nr_samples := 1 }

/-- Concrete one-tap state holding a single 2-sample buffer. -/
def firW8 : DirectFir :=
  { direct_fir_init [32767] [0] 1 with
    sb_active := some ⟨1, [(10, 0), (20, 0)]⟩
    nr_samples := 2 }

/-! ## Arithmetic helper lemmas -/

theorem add64_eq {a b : Nat} (h : a + b < 2 ^ 64) : add64 a b = a + b := by
  simp only [add64]
  omega

theorem sub64_eq {a b : Nat} (hba : b ≤ a) (ha : a < 2 ^ 64) : sub64 a b = a - b := by
  simp only [sub64]
  omega

/-! ## C9: a zero-sample request fails the argument check -/

/-- C9: calling `direct_fir_process` with a requested sample count of
zero fails the `TSL_ASSERT_ARG` argument check and returns the
`InvalidArgument` error without writing any output sample or mutating
any filter state. -/
theorem direct_fir_process_zero (fir : DirectFir) :
    direct_fir_process fir 0 = some (fir, [], Aresult.eInval) := rfl

/-! ## C10: cleanup clears the slots, so a second cleanup releases nothing -/

/-- C10: `direct_fir_cleanup` clears both buffer slots immediately after
decrementing their reference counts, so a second cleanup call performs
no further buffer refcount decrements (its released-address list is
empty): cleanup is idempotent with respect to buffer release. -/
theorem direct_fir_cleanup_idem (fir : DirectFir) :
    (direct_fir_cleanup fir).1.sb_active = none ∧
    (direct_fir_cleanup fir).1.sb_next = none ∧
    (direct_fir_cleanup (direct_fir_cleanup fir).1).2 = [] :=
  ⟨rfl, rfl, rfl⟩

/-! ## C6: push installs into a free slot, reports Busy when both are full -/

/-- C6: when both buffer slots are occupied, `direct_fir_push_sample_buf`
returns `Busy` and mutates nothing (the returned state is the input
state, so the caller retains its reference); when a slot is free it
installs the buffer (into active if active is absent, otherwise into
next) and adds the buffer's sample count to `nr_samples`. -/
theorem direct_fir_push_spec (fir : DirectFir) (buf : SampleBuf)
    (hba : fir.sb_active.map SampleBuf.addr ≠ some buf.addr)
    (hbn : fir.sb_next.map SampleBuf.addr ≠ some buf.addr)
    (hinv : fir.sb_next.isSome = true → fir.sb_active.isSome = true)
    (hcnt : fir.nr_samples + buf.nrSamples < 2 ^ 64) :
    (fir.sb_active.isSome = true → fir.sb_next.isSome = true →
      direct_fir_push_sample_buf fir buf = some (fir, Aresult.eBusy)) ∧
    (fir.sb_active = none →
      direct_fir_push_sample_buf fir buf =
        some ({ fir with sb_active := some buf
                         nr_samples := fir.nr_samples + buf.nrSamples }, Aresult.ok)) ∧
    (fir.sb_active.isSome = true → fir.sb_next = none →
      direct_fir_push_sample_buf fir buf =
        some ({ fir with sb_next := some buf
                         nr_samples := fir.nr_samples + buf.nrSamples }, Aresult.ok)) := by
  rcases ha : fir.sb_active with _ | a <;> rcases hn : fir.sb_next with _ | b
  · refine ⟨by simp [ha], fun _ => ?_, by simp [hn]⟩
    simp [direct_fir_push_sample_buf, ha, hn, add64_eq hcnt]
  · exact absurd (hinv (by simp [hn])) (by simp [ha])
  · have h1 : a.addr ≠ buf.addr := by simpa [ha] using hba
    refine ⟨by simp [hn], by simp [ha], fun _ _ => ?_⟩
    simp [direct_fir_push_sample_buf, ha, hn, h1, add64_eq hcnt]
  · have h1 : a.addr ≠ buf.addr := by simpa [ha] using hba
    have h2 : b.addr ≠ buf.addr := by simpa [hn] using hbn
    refine ⟨fun _ _ => ?_, by simp [ha], by simp [hn]⟩
    simp [direct_fir_push_sample_buf, ha, hn, h1, h2]

/-- Witness for C6: a concrete fully-occupied state and a distinct
buffer exercise `direct_fir_push_spec`; the push reports `Busy` and
leaves the state untouched. -/
theorem direct_fir_push_spec_witness :
    (firW6.sb_active.map SampleBuf.addr ≠ some bufW6.addr ∧
     firW6.sb_next.map SampleBuf.addr ≠ some bufW6.addr ∧
     (firW6.sb_next.isSome = true → firW6.sb_active.isSome = true) ∧
     firW6.nr_samples + bufW6.nrSamples < 2 ^ 64) ∧
    (firW6.sb_active.isSome = true → firW6.sb_next.isSome = true →
      direct_fir_push_sample_buf firW6 bufW6 = some (firW6, Aresult.eBusy)) :=
  ⟨⟨by decide, by decide, by decide, by decide⟩,
    (direct_fir_push_spec firW6 bufW6 (by decide) (by decide) (by decide) (by decide)).1⟩

/-! ## Concrete kernel evaluations exhibiting the scalar variant's defects -/

/-- C2 counterexample: in `firC2` only 3 samples are queued against 5
taps, yet the kernel does not return the `Exhausted` signal - the span
check only fires when `next` is absent, so the kernel produces an
output here instead, refuting the claimed "exactly when
`nr_samples_queued < N`". -/
theorem c2_counterexample :
    queuedSamples firC2 < firC2.nr_coeffs ∧
    (_direct_fir_process_sample firC2).map
      (fun p => match p.2 with | KernelRes.done => true | KernelRes.out _ _ => false) =
      some false := by decide

/-- C3: on the exactly-fitting input `firC3` (`sample_offset + D =
active.nr_samples`), the scalar kernel produces an output but keeps the
active buffer alive into the next call instead of retiring it: the
strict `>` of line 394 misses the boundary case the spec mandates
(`>=`). -/
theorem c3_exact_fit_keeps_buffer :
    (_direct_fir_process_sample firC3).map
      (fun p => (p.1.sb_active, p.1.sb_next, p.1.sample_offset, p.2)) =
      some (some bufC3A, some bufC3B, 2, KernelRes.out 1 0) := by decide

/-- C4: when `firC4` retires its active buffer, line 398 reads
`fir->sb_active->nr_samples` after `sb_active` has already been
overwritten with `sb_next`, so the new offset is
`(0 + 4) - 5` in `size_t` arithmetic (wrapping to `2^64 - 1`) instead
of the claimed `(0 + 4) - 3 = 1` using the retired buffer's count. -/
theorem c4_wrong_subtrahend :
    (_direct_fir_process_sample firC4).map
      (fun p => (p.1.sb_active.map SampleBuf.addr, p.1.sample_offset)) =
      some (some 2, 2 ^ 64 - 1) ∧
    2 ^ 64 - 1 ≠ firC4.sample_offset + firC4.decimate_factor - bufC4A.nrSamples := by
  decide

/-- C5: a legal operation sequence - init with one tap and decimation
two, push a 2-sample buffer, process one sample - leaves the cursor at
`sample_offset = 2` with the 2-sample buffer still active, violating
the claimed invariant `sample_offset < active.nr_samples` (a
consequence of the strict `>` advance test). -/
theorem c5_invariant_violated :
    (do
      let p ← direct_fir_push_sample_buf (direct_fir_init [32767] [0] 2)
        (SampleBuf.mk 1 [(10, 0), (20, 0)])
      let r ← direct_fir_process p.1 1
      pure (p.2, r.2.2, r.1.sample_offset, cursorOk r.1)) =
      some (Aresult.ok, Aresult.ok, 2, false) := by decide

/-- C1 counterexample: `firC1x` satisfies the cursor invariants, has
derotation disabled and has `queuedSamples >= N` (3 >= 1), yet the
kernel call aborts (the cursor advance overruns the active buffer with
no next buffer queued and dereferences NULL at line 398) and writes no
output pair at all. -/
theorem c1_counterexample :
    cursorOk firC1x = true ∧
    firC1x.rot_phase_incr_re = 0 ∧ firC1x.rot_phase_incr_im = 0 ∧
    firC1x.nr_coeffs ≤ queuedSamples firC1x ∧
    _direct_fir_process_sample firC1x = none := by decide

/-- C7 counterexample: on an initialized instance holding one pushed
4-sample buffer (one tap, decimation six), `process` with `n = 3`
aborts via the kernel's NULL dereference instead of returning success
with a short count. -/
theorem c7_counterexample :
    (do
      let p ← direct_fir_push_sample_buf (direct_fir_init [32767] [0] 6)
        (SampleBuf.mk 1 [(7, 0), (8, 0), (9, 0), (10, 0)])
      direct_fir_process p.1 3) = none := by decide

/-! ## Relating the kernel's convolution loop to the spec-side convolution -/

theorem foldl_congr_on {α β : Type} {l : List β} (f g : α → β → α)
    (h : ∀ acc b, b ∈ l → f acc b = g acc b) :
    ∀ acc, l.foldl f acc = l.foldl g acc := by
  induction l with
  | nil => intro acc; rfl
  | cons x xs ih =>
    intro acc
    simp only [List.foldl_cons]
    rw [h acc x (List.mem_cons_self x xs)]
    exact ih (fun acc b hb => h acc b (List.mem_cons_of_mem x hb)) _

theorem firInner_eq (fir : DirectFir) (cur : SampleBuf) (boff scoff : Nat)
    (n : Nat) (acc : Int × Int) (hn : n + scoff ≤ fir.nr_coeffs)
    (hb : boff + n ≤ cur.nrSamples) (hlen : cur.nrSamples < 2 ^ 64) :
    firInner fir cur boff scoff n acc = some (pureInner fir cur boff scoff n acc) := by
  induction n with
  | zero => rfl
  | succ k ih =>
    have h1 : ¬ fir.nr_coeffs ≤ k + scoff := by omega
    have h2 : add64 k boff = k + boff := add64_eq (by omega)
    have h2' : add64 boff k = boff + k := add64_eq (by omega)
    have h3 : ¬ cur.nrSamples ≤ add64 k boff := by rw [h2]; omega
    have ihe := ih (by omega) (by omega)
    simp only [firInner] at ihe ⊢
    rw [List.range_succ, List.foldl_append, List.foldl_cons, List.foldl_nil, ihe]
    simp only [firStep, Option.some_bind, if_neg h1, if_neg h3, h2']
    simp only [pureInner, List.range_succ, List.foldl_append, List.foldl_cons,
      List.foldl_nil]

theorem firLoop_eq (fir : DirectFir) (a : SampleBuf)
    (hoff : fir.sample_offset ≤ a.nrSamples)
    (hq : fir.nr_coeffs ≤ a.nrSamples - fir.sample_offset + nextLen fir)
    (hA : a.nrSamples < 2 ^ 64) (hB : nextLen fir < 2 ^ 64) :
    firLoop fir (fir.nr_coeffs + 2) (0, 0) fir.nr_coeffs (some a) fir.sample_offset =
      some (specConvolution fir a fir.sb_next fir.sample_offset) := by
  have hsub : sub64 a.nrSamples fir.sample_offset = a.nrSamples - fir.sample_offset :=
    sub64_eq hoff hA
  by_cases hc : fir.nr_coeffs ≤ a.nrSamples - fir.sample_offset
  · -- single span: all taps read from the active buffer
    have hmin : min (sub64 a.nrSamples fir.sample_offset) fir.nr_coeffs = fir.nr_coeffs := by
      rw [hsub]; exact Nat.min_eq_right hc
    have hinner := firInner_eq fir a fir.sample_offset 0 fir.nr_coeffs (0, 0)
      (by omega) (by omega) hA
    rw [show fir.nr_coeffs + 2 = (fir.nr_coeffs + 1) + 1 from rfl, firLoop, hmin]
    simp only [Nat.sub_self, hinner, if_pos]
    refine congrArg some ?_
    simp only [pureInner, specConvolution]
    refine foldl_congr_on _ _ (fun acc k hk => ?_) (0, 0)
    have hk' : k < fir.nr_coeffs := List.mem_range.mp hk
    have hlt : fir.sample_offset + k < a.nrSamples := by omega
    simp only [specConvStep, specStreamSample, if_pos hlt, Nat.add_zero]
  · -- two spans: the tail of the active buffer, then the head of next
    push_neg at hc
    have ht1 : min (sub64 a.nrSamples fir.sample_offset) fir.nr_coeffs =
        a.nrSamples - fir.sample_offset := by
      rw [hsub]; exact Nat.min_eq_left (le_of_lt hc)
    obtain ⟨b, hnx⟩ : ∃ b, fir.sb_next = some b := by
      rcases hx : fir.sb_next with _ | b
      · exfalso; simp [nextLen, hx] at hq; omega
      · exact ⟨b, rfl⟩
    have hblen : nextLen fir = b.nrSamples := by simp [nextLen, hnx]
    set t1 := a.nrSamples - fir.sample_offset with ht1def
    have hinner1 := firInner_eq fir a fir.sample_offset 0 t1 (0, 0)
      (by omega) (by omega) hA
    have hrem : ¬ fir.nr_coeffs - t1 = 0 := by omega
    rw [show fir.nr_coeffs + 2 = (fir.nr_coeffs + 1) + 1 from rfl, firLoop, ht1]
    simp only [Nat.sub_self, hinner1, if_neg hrem, hnx]
    -- second iteration, from the next buffer
    have hsub0 : sub64 b.nrSamples 0 = b.nrSamples := sub64_eq (Nat.zero_le _) (by omega)
    have hmin2 : min (sub64 b.nrSamples 0) (fir.nr_coeffs - t1) = fir.nr_coeffs - t1 := by
      rw [hsub0]; exact Nat.min_eq_right (by omega)
    have hsc2 : fir.nr_coeffs - (fir.nr_coeffs - t1) = t1 := by omega
    have hinner2 := firInner_eq fir b 0 t1 (fir.nr_coeffs - t1)
      (pureInner fir a fir.sample_offset 0 t1 (0, 0)) (by omega) (by omega) (by omega)
    rw [show fir.nr_coeffs + 1 = fir.nr_coeffs + 1 from rfl, firLoop, hmin2, hsc2]
    simp only [Nat.sub_self, hinner2, if_pos]
    refine congrArg some ?_
    -- split the spec-side fold at t1
    have hN : fir.nr_coeffs = t1 + (fir.nr_coeffs - t1) := by omega
    rw [specConvolution, hN, List.range_add, List.foldl_append, List.foldl_map]
    have hpart1 : (List.range t1).foldl (specConvStep fir a fir.sb_next fir.sample_offset)
        (0, 0) = pureInner fir a fir.sample_offset 0 t1 (0, 0) := by
      rw [pureInner]
      refine foldl_congr_on _ _ (fun acc k hk => ?_) (0, 0)
      have hk' : k < t1 := List.mem_range.mp hk
      have hlt : fir.sample_offset + k < a.nrSamples := by omega
      simp only [specConvStep, specStreamSample, if_pos hlt, Nat.add_zero]
    rw [hnx] at hpart1
    rw [hpart1, pureInner]
    have hfix : t1 + (fir.nr_coeffs - t1) - t1 = fir.nr_coeffs - t1 := by omega
    rw [hfix]
    refine foldl_congr_on _ _ (fun acc i hi => ?_) _
    have hi' : i < fir.nr_coeffs - t1 := List.mem_range.mp hi
    have hofft : fir.sample_offset + (i + t1) = a.nrSamples + i := by omega
    have hnlt : ¬ a.nrSamples + i < a.nrSamples := by omega
    simp only [specConvStep, specStreamSample, Nat.add_comm t1 i, hofft, if_neg hnlt,
      Nat.add_sub_cancel_left, Nat.zero_add]

theorem queuedSamples_eq {fir : DirectFir} {a : SampleBuf} (h : fir.sb_active = some a) :
    queuedSamples fir = a.nrSamples - fir.sample_offset + nextLen fir := by
  simp [queuedSamples, h]

theorem advanceCursor_some (fir : DirectFir) (a : SampleBuf)
    (hadv : fir.sample_offset + fir.decimate_factor ≤ a.nrSamples ∨ fir.sb_next ≠ none)
    (h10 : fir.sample_offset + fir.decimate_factor < 2 ^ 64) :
    ∃ fir1, advanceCursor fir a = some fir1 := by
  unfold advanceCursor
  rw [add64_eq h10]
  rcases hadv with h | h
  · rw [if_neg (by omega)]
    exact ⟨_, rfl⟩
  · obtain ⟨b, hb⟩ := Option.ne_none_iff_exists'.mp h
    rw [hb]
    split
    · exact ⟨_, rfl⟩
    · exact ⟨_, rfl⟩

theorem kernel_eq (fir : DirectFir) (a : SampleBuf)
    (h1 : fir.sb_active = some a)
    (h2 : fir.sample_offset < a.nrSamples)
    (hq : fir.nr_coeffs ≤ queuedSamples fir)
    (hA : a.nrSamples < 2 ^ 64) (hB : nextLen fir < 2 ^ 64)
    (h9 : fir.sample_offset + fir.nr_coeffs < 2 ^ 64) :
    _direct_fir_process_sample fir =
      (advanceCursor fir a).map (fun fir1 =>
        let fir2 := { fir1 with nr_samples := sub64 fir1.nr_samples fir.decimate_factor }
        let acc := specConvolution fir a fir.sb_next fir.sample_offset
        if fir.rot_phase_incr_re = 0 ∧ fir.rot_phase_incr_im = 0 then
          (fir2, KernelRes.out (toInt16 (round_q30_q15 acc.1)) (toInt16 (round_q30_q15 acc.2)))
        else
          let d := _direct_fir_apply_derotation fir2 (round_q30_q15 acc.1)
            (round_q30_q15 acc.2)
          (d.1, KernelRes.out (toInt16 (round_q30_q15 d.2.1))
            (toInt16 (round_q30_q15 d.2.2)))) := by
  rw [queuedSamples_eq h1] at hq
  have hifc : ¬ (a.nrSamples < add64 fir.sample_offset fir.nr_coeffs ∧ fir.sb_next = none) := by
    rintro ⟨hlt, hnone⟩
    rw [add64_eq h9] at hlt
    have hz : nextLen fir = 0 := by simp [nextLen, hnone]
    omega
  have hloop := firLoop_eq fir a (le_of_lt h2) hq hA hB
  simp only [_direct_fir_process_sample, h1, if_neg hifc, hloop]
  cases hadv : advanceCursor fir a
  · simp
  · simp only [Option.map_some']
    split <;> rfl

/-! ## C1 and C2: the kernel's output and exhaustion behaviour -/

/-- C1 (amended): for every filter state satisfying the cursor
invariants, with derotation disabled and at least `N` samples queued
across the active and next buffers - provided additionally that the
cursor advance does not retire the active buffer while no next buffer
is queued (`sample_offset + D <= active.nr_samples` or next present;
otherwise the scalar advance dereferences NULL and aborts, see the C1
counterexample) - one kernel call writes the output pair obtained by
convolving the `N` taps against the `N` consecutive input samples
starting at the cursor, products `p_re = c_re*s_re - c_im*s_im`,
`p_im = c_re*s_im + c_im*s_re` accumulated into wrapping 32-bit
accumulators and rounded to Q.15 via `(x + 2^14) >> 15`. -/
theorem c1_kernel_convolution (fir : DirectFir) (a : SampleBuf)
    (h1 : fir.sb_active = some a)
    (h2 : fir.sample_offset < a.nrSamples)
    (_hN : 0 < fir.nr_coeffs) (_hD : 0 < fir.decimate_factor)
    (hq : fir.nr_coeffs ≤ queuedSamples fir)
    (hd1 : fir.rot_phase_incr_re = 0) (hd2 : fir.rot_phase_incr_im = 0)
    (hadv : fir.sample_offset + fir.decimate_factor ≤ a.nrSamples ∨ fir.sb_next ≠ none)
    (hA : a.nrSamples < 2 ^ 64) (hB : nextLen fir < 2 ^ 64)
    (h9 : fir.sample_offset + fir.nr_coeffs < 2 ^ 64)
    (h10 : fir.sample_offset + fir.decimate_factor < 2 ^ 64) :
    ∃ fir', _direct_fir_process_sample fir = some (fir',
      KernelRes.out
        (toInt16 (round_q30_q15 (specConvolution fir a fir.sb_next fir.sample_offset).1))
        (toInt16 (round_q30_q15 (specConvolution fir a fir.sb_next fir.sample_offset).2))) := by
  obtain ⟨fir1, hfir1⟩ := advanceCursor_some fir a hadv h10
  rw [kernel_eq fir a h1 h2 hq hA hB h9, hfir1]
  simp only [Option.map_some', hd1, hd2, and_self, if_true]
  exact ⟨_, rfl⟩

/-- Witness for C1: the two-buffer straddle state `firW1` (cursor on the
last sample of the active buffer) satisfies every hypothesis, and the
kernel output is the spec-side convolution straddling the seam. -/
theorem c1_kernel_convolution_witness :
    (firW1.sb_active = some (SampleBuf.mk 1 [(2, 0), (4, 0)]) ∧
     firW1.sample_offset < (SampleBuf.mk 1 [(2, 0), (4, 0)]).nrSamples ∧
     0 < firW1.nr_coeffs ∧ 0 < firW1.decimate_factor ∧
     firW1.nr_coeffs ≤ queuedSamples firW1 ∧
     firW1.rot_phase_incr_re = 0 ∧ firW1.rot_phase_incr_im = 0 ∧
     (firW1.sample_offset + firW1.decimate_factor ≤
        (SampleBuf.mk 1 [(2, 0), (4, 0)]).nrSamples ∨ firW1.sb_next ≠ none) ∧
     (SampleBuf.mk 1 [(2, 0), (4, 0)]).nrSamples < 2 ^ 64 ∧ nextLen firW1 < 2 ^ 64 ∧
     firW1.sample_offset + firW1.nr_coeffs < 2 ^ 64 ∧
     firW1.sample_offset + firW1.decimate_factor < 2 ^ 64) ∧
    (∃ fir', _direct_fir_process_sample firW1 = some (fir',
      KernelRes.out
        (toInt16 (round_q30_q15
          (specConvolution firW1 (SampleBuf.mk 1 [(2, 0), (4, 0)]) firW1.sb_next
            firW1.sample_offset).1))
        (toInt16 (round_q30_q15
          (specConvolution firW1 (SampleBuf.mk 1 [(2, 0), (4, 0)]) firW1.sb_next
            firW1.sample_offset).2)))) :=
  ⟨⟨by decide, by decide, by decide, by decide, by decide, by decide, by decide, by decide,
     by decide, by decide, by decide, by decide⟩,
   c1_kernel_convolution firW1 (SampleBuf.mk 1 [(2, 0), (4, 0)]) (by decide) (by decide)
     (by decide) (by decide) (by decide) (by decide) (by decide) (by decide) (by decide)
     (by decide) (by decide) (by decide)⟩

/-- C2 (amended): the kernel returns the `Exhausted` signal, leaving
the state unmutated, exactly when the cursor plus `N` overruns the
active buffer and next is absent (which, with next absent, is
`nr_samples_queued < N`) - but when next is present the span check
does not fire even with fewer than `N` samples queued (see the C2
counterexample); whenever at least `N` samples remain across the two
slots and the cursor advance does not retire with next absent, the
kernel produces an output. -/
theorem c2_exhaustion_signal (fir : DirectFir) (a : SampleBuf)
    (h1 : fir.sb_active = some a)
    (h2 : fir.sample_offset < a.nrSamples)
    (_hN : 0 < fir.nr_coeffs)
    (hA : a.nrSamples < 2 ^ 64) (hB : nextLen fir < 2 ^ 64)
    (h9 : fir.sample_offset + fir.nr_coeffs < 2 ^ 64)
    (h10 : fir.sample_offset + fir.decimate_factor < 2 ^ 64) :
    (_direct_fir_process_sample fir = some (fir, KernelRes.done) ↔
      a.nrSamples < fir.sample_offset + fir.nr_coeffs ∧ fir.sb_next = none) ∧
    (fir.nr_coeffs ≤ queuedSamples fir →
      (fir.sample_offset + fir.decimate_factor ≤ a.nrSamples ∨ fir.sb_next ≠ none) →
      ∃ fir' r i, _direct_fir_process_sample fir = some (fir', KernelRes.out r i)) := by
  constructor
  · by_cases hc : a.nrSamples < add64 fir.sample_offset fir.nr_coeffs ∧ fir.sb_next = none
    · have hc' := hc
      rw [add64_eq h9] at hc'
      simp only [_direct_fir_process_sample, h1, if_pos hc]
      simp [hc']
    · have hc' := hc
      rw [add64_eq h9] at hc'
      simp only [_direct_fir_process_sample, h1, if_neg hc]
      constructor
      · intro h
        exfalso
        rcases hl : firLoop fir (fir.nr_coeffs + 2) (0, 0) fir.nr_coeffs (some a)
            fir.sample_offset with _ | acc
        · simp only [hl] at h
          exact Option.noConfusion h
        · rcases ha2 : advanceCursor fir a with _ | fir1
          · simp only [hl, ha2] at h
            exact Option.noConfusion h
          · simp only [hl, ha2] at h
            split at h <;> simp at h
      · exact fun hx => absurd hx hc'
  · intro hq hadv
    obtain ⟨fir1, hfir1⟩ := advanceCursor_some fir a hadv h10
    rw [kernel_eq fir a h1 h2 hq hA hB h9, hfir1]
    simp only [Option.map_some']
    split
    · exact ⟨_, _, _, rfl⟩
    · exact ⟨_, _, _, rfl⟩

/-- Witness for C2: the single-buffer state `firW2` (three samples, two
taps) satisfies the hypotheses; the theorem yields both the exhaustion
characterisation and the output production at this state. -/
theorem c2_exhaustion_signal_witness :
    (firW2.sb_active = some (SampleBuf.mk 1 [(2, 0), (4, 0), (6, 0)]) ∧
     firW2.sample_offset < (SampleBuf.mk 1 [(2, 0), (4, 0), (6, 0)]).nrSamples ∧
     0 < firW2.nr_coeffs ∧
     (SampleBuf.mk 1 [(2, 0), (4, 0), (6, 0)]).nrSamples < 2 ^ 64 ∧
     nextLen firW2 < 2 ^ 64 ∧
     firW2.sample_offset + firW2.nr_coeffs < 2 ^ 64 ∧
     firW2.sample_offset + firW2.decimate_factor < 2 ^ 64) ∧
    ((_direct_fir_process_sample firW2 = some (firW2, KernelRes.done) ↔
      (SampleBuf.mk 1 [(2, 0), (4, 0), (6, 0)]).nrSamples <
        firW2.sample_offset + firW2.nr_coeffs ∧ firW2.sb_next = none) ∧
     (firW2.nr_coeffs ≤ queuedSamples firW2 →
      (firW2.sample_offset + firW2.decimate_factor ≤
        (SampleBuf.mk 1 [(2, 0), (4, 0), (6, 0)]).nrSamples ∨ firW2.sb_next ≠ none) →
      ∃ fir' r i, _direct_fir_process_sample firW2 = some (fir', KernelRes.out r i))) :=
  ⟨⟨by decide, by decide, by decide, by decide, by decide, by decide, by decide⟩,
   c2_exhaustion_signal firW2 (SampleBuf.mk 1 [(2, 0), (4, 0), (6, 0)]) (by decide)
     (by decide) (by decide) (by decide) (by decide) (by decide) (by decide)⟩

/-! ## Structural facts about the kernel and the process loop -/

theorem advanceCursor_out {fir : DirectFir} {a : SampleBuf} {fir1 : DirectFir}
    (ha : fir.sb_active = some a) (h : advanceCursor fir a = some fir1) :
    fir1.sb_active.isSome = true ∧ fir1.nr_coeffs = fir.nr_coeffs := by
  unfold advanceCursor at h
  split at h
  · rcases hx : fir.sb_next with _ | b
    · rw [hx] at h
      exact Option.noConfusion h
    · rw [hx] at h
      obtain rfl := Option.some.inj h
      simp
  · obtain rfl := Option.some.inj h
    simp [ha]

theorem kernel_cases (fir : DirectFir) :
    _direct_fir_process_sample fir = none ∨
    _direct_fir_process_sample fir = some (fir, KernelRes.done) ∨
    ∃ f' r i, _direct_fir_process_sample fir = some (f', KernelRes.out r i) ∧
      f'.sb_active.isSome = true ∧ f'.nr_coeffs = fir.nr_coeffs := by
  rcases ha : fir.sb_active with _ | a
  · left
    simp only [_direct_fir_process_sample, ha]
  · by_cases hc : a.nrSamples < add64 fir.sample_offset fir.nr_coeffs ∧ fir.sb_next = none
    · right; left
      simp only [_direct_fir_process_sample, ha, if_pos hc]
    · rcases hl : firLoop fir (fir.nr_coeffs + 2) (0, 0) fir.nr_coeffs (some a)
          fir.sample_offset with _ | acc
      · left
        simp only [_direct_fir_process_sample, ha, if_neg hc, hl]
      · rcases ha2 : advanceCursor fir a with _ | fir1
        · left
          simp only [_direct_fir_process_sample, ha, if_neg hc, hl, ha2]
        · right; right
          obtain ⟨hact, hco⟩ := advanceCursor_out ha ha2
          simp only [_direct_fir_process_sample, ha, if_neg hc, hl, ha2]
          split
          · exact ⟨_, _, _, rfl, by simpa using hact, by simpa using hco⟩
          · refine ⟨_, _, _, rfl, ?_, ?_⟩
            · simpa [_direct_fir_apply_derotation] using hact
            · simpa [_direct_fir_apply_derotation] using hco

theorem kernel_done_inv {fir f' : DirectFir}
    (h : _direct_fir_process_sample fir = some (f', KernelRes.done)) : f' = fir := by
  rcases kernel_cases fir with h0 | h0 | ⟨f'', r, i, h0, -, -⟩
  · rw [h0] at h
    exact Option.noConfusion h
  · rw [h0] at h
    exact congrArg Prod.fst (Option.some.inj h).symm
  · rw [h0] at h
    simp at h

theorem kernel_out_inv {fir f' : DirectFir} {re im : Int}
    (h : _direct_fir_process_sample fir = some (f', KernelRes.out re im)) :
    f'.sb_active.isSome = true ∧ f'.nr_coeffs = fir.nr_coeffs := by
  rcases kernel_cases fir with h0 | h0 | ⟨f'', r, i, h0, hact, hco⟩
  · rw [h0] at h
    exact Option.noConfusion h
  · rw [h0] at h
    simp at h
  · rw [h0] at h
    obtain ⟨h1, -⟩ := Prod.mk.injEq .. ▸ Option.some.inj h
    exact h1 ▸ ⟨hact, hco⟩

theorem processLoop_spec : ∀ (n : Nat) (fir f1 : DirectFir) (outs : List (Int × Int)),
    processLoop n fir = some (f1, outs) →
    outs.length ≤ n ∧ f1.nr_coeffs = fir.nr_coeffs ∧
    (outs.length < n → _direct_fir_process_sample f1 = some (f1, KernelRes.done)) ∧
    (fir.sb_active.isSome = true → f1.sb_active.isSome = true) := by
  intro n
  induction n with
  | zero =>
    intro fir f1 outs h
    obtain ⟨h1, h2⟩ := Prod.mk.injEq .. ▸ Option.some.inj h
    subst h1; subst h2
    exact ⟨Nat.le_refl 0, rfl, fun hlt => absurd hlt (by omega), fun hx => hx⟩
  | succ k ih =>
    intro fir f1 outs h
    rw [processLoop] at h
    rcases hk : _direct_fir_process_sample fir with _ | ⟨f', kr⟩
    · simp only [hk] at h
      exact Option.noConfusion h
    · cases kr with
      | done =>
        simp only [hk] at h
        obtain rfl := kernel_done_inv hk
        injection h with h'
        injection h' with h1 h2
        subst h1; subst h2
        exact ⟨by simp, rfl, fun _ => hk, fun hx => hx⟩
      | out re im =>
        simp only [hk] at h
        rcases hp : processLoop k f' with _ | r
        · rw [hp] at h
          exact Option.noConfusion h
        · rw [hp] at h
          simp only [Option.map_some'] at h
          injection h with h'
          injection h' with h1 h2
          subst h1; subst h2
          obtain ⟨hlen, hco, hstop, hact⟩ := ih f' r.1 r.2 (by rw [hp])
          obtain ⟨hkact, hkco⟩ := kernel_out_inv hk
          refine ⟨by simp; omega, hco.trans hkco, fun hlt => hstop (by simp at hlt; omega),
            fun _ => hact hkact⟩

/-! ## C7: the shape of a completed process call -/

/-- C7 (amended): for every call `process(out, n)` with `n >= 1` that
returns (i.e. no kernel invocation aborts - the scalar kernel can abort
on legal states, see the C7 counterexample): if both buffer slots are
empty at entry the call returns success with zero samples generated and
an unchanged state; otherwise it returns success with a sample count in
`[0, n]`, and whenever fewer than `n` samples were produced the loop
stopped at the first `Exhausted` kernel result (the final state's
kernel call returns `Exhausted` and mutates nothing). -/
theorem c7_process_shape (fir : DirectFir) (n : Nat) (fir' : DirectFir)
    (outs : List (Int × Int)) (code : Aresult) (hn : 1 ≤ n)
    (h : direct_fir_process fir n = some (fir', outs, code)) :
    code = Aresult.ok ∧ outs.length ≤ n ∧
    (fir.sb_active = none ∧ fir.sb_next = none → fir' = fir ∧ outs = []) ∧
    (¬ (fir.sb_active = none ∧ fir.sb_next = none) → outs.length < n →
      _direct_fir_process_sample fir' = some (fir', KernelRes.done)) := by
  have hn' : ¬ n = 0 := by omega
  by_cases hco : fir.nr_coeffs = 0
  · rw [direct_fir_process, if_neg hn', if_pos hco] at h
    exact Option.noConfusion h
  by_cases hempty : fir.sb_active = none ∧ fir.sb_next = none
  · rw [direct_fir_process, if_neg hn', if_neg hco, if_pos hempty] at h
    injection h with h'
    injection h' with h1 h2
    injection h2 with h2 h3
    subst h1; subst h2; subst h3
    exact ⟨rfl, by simp, fun _ => ⟨rfl, rfl⟩, fun hx => absurd hempty hx⟩
  · rw [direct_fir_process, if_neg hn', if_neg hco, if_neg hempty] at h
    rcases hp : processLoop n fir with _ | r
    · rw [hp] at h
      exact Option.noConfusion h
    · rw [hp] at h
      simp only [Option.map_some'] at h
      injection h with h'
      injection h' with h1 h2
      injection h2 with h2 h3
      subst h1; subst h2; subst h3
      obtain ⟨hlen, -, hstop, -⟩ := processLoop_spec n fir r.1 r.2 (by rw [hp])
      exact ⟨rfl, hlen, fun hx => absurd hx hempty, fun _ => hstop⟩

/-- Witness for C7: a one-tap, decimate-one instance holding a single
one-sample buffer; `process` with `n = 2` produces one sample, stops at
the first `Exhausted`, and reports success. -/
theorem c7_process_shape_witness :
    (1 ≤ 2 ∧
     direct_fir_process firW7 2 =
       some ({ firW7 with sample_offset := 1, nr_samples := 0 }, [(0, 0)], Aresult.ok)) ∧
    (Aresult.ok = Aresult.ok ∧ [((0 : Int), (0 : Int))].length ≤ 2 ∧
     (firW7.sb_active = none ∧ firW7.sb_next = none →
       { firW7 with sample_offset := 1, nr_samples := 0 } = firW7 ∧
         [((0 : Int), (0 : Int))] = []) ∧
     (¬ (firW7.sb_active = none ∧ firW7.sb_next = none) →
       [((0 : Int), (0 : Int))].length < 2 →
       _direct_fir_process_sample { firW7 with sample_offset := 1, nr_samples := 0 } =
         some ({ firW7 with sample_offset := 1, nr_samples := 0 }, KernelRes.done))) :=
  ⟨⟨by decide, by decide⟩,
   c7_process_shape firW7 2 { firW7 with sample_offset := 1, nr_samples := 0 }
     [(0, 0)] Aresult.ok (by decide) (by decide)⟩

/-! ## C8: output is independent of the chunking of process requests -/

theorem processLoop_succ_none {fir : DirectFir}
    (h : _direct_fir_process_sample fir = none) (n : Nat) :
    processLoop (n + 1) fir = none := by
  rw [processLoop, h]

theorem processLoop_succ_done {fir f' : DirectFir}
    (h : _direct_fir_process_sample fir = some (f', KernelRes.done)) (n : Nat) :
    processLoop (n + 1) fir = some (f', []) := by
  rw [processLoop, h]

theorem processLoop_succ_out {fir f' : DirectFir} {re im : Int}
    (h : _direct_fir_process_sample fir = some (f', KernelRes.out re im)) (n : Nat) :
    processLoop (n + 1) fir = (processLoop n f').map fun r => (r.1, (re, im) :: r.2) := by
  rw [processLoop, h]

theorem processLoop_split : ∀ (n m : Nat) (fir : DirectFir),
    processLoop (n + m) fir =
      (processLoop n fir).bind fun p =>
        (processLoop m p.1).map fun q => (q.1, p.2 ++ q.2) := by
  intro n
  induction n with
  | zero =>
    intro m fir
    rw [Nat.zero_add, processLoop]
    cases hq : processLoop m fir with
    | none => simp [hq]
    | some q => simp [hq]
  | succ k ih =>
    intro m fir
    have hshift : k + 1 + m = (k + m) + 1 := by omega
    rcases hk : _direct_fir_process_sample fir with _ | ⟨f', kr⟩
    · rw [hshift, processLoop_succ_none hk (k + m), processLoop_succ_none hk k]
      rfl
    · cases kr with
      | done =>
        obtain rfl := kernel_done_inv hk
        rw [hshift, processLoop_succ_done hk (k + m), processLoop_succ_done hk k,
          Option.some_bind]
        cases m with
        | zero =>
          rw [processLoop]
          simp
        | succ j =>
          rw [processLoop_succ_done hk j]
          simp
      | out re im =>
        rw [hshift, processLoop_succ_out hk (k + m), processLoop_succ_out hk k, ih m f']
        cases hp : processLoop k f' with
        | none => rfl
        | some p =>
          simp only [Option.some_bind, Option.map_some']
          cases hq : processLoop m p.1 with
          | none => rfl
          | some q => simp

/-- C8: for a fixed tap vector and fixed queued input, the outputs of
`process` are independent of chunking: one call requesting `n + m`
samples produces exactly the concatenation of the outputs of a call
requesting `n` followed by a call requesting `m` (with the final state,
the abort behaviour and the result code also agreeing), for any
`n, m >= 1`. -/
theorem c8_process_chunking (fir : DirectFir) (n m : Nat) (hn : 1 ≤ n) (hm : 1 ≤ m) :
    direct_fir_process fir (n + m) =
      (direct_fir_process fir n).bind fun p =>
        (direct_fir_process p.1 m).map fun q => (q.1, p.2.1 ++ q.2.1, q.2.2) := by
  have hn0 : ¬ n + m = 0 := by omega
  have hn' : ¬ n = 0 := by omega
  have hm' : ¬ m = 0 := by omega
  by_cases hco : fir.nr_coeffs = 0
  · rw [direct_fir_process, if_neg hn0, if_pos hco,
      direct_fir_process, if_neg hn', if_pos hco]
    rfl
  by_cases hempty : fir.sb_active = none ∧ fir.sb_next = none
  · rw [direct_fir_process, if_neg hn0, if_neg hco, if_pos hempty,
      direct_fir_process, if_neg hn', if_neg hco, if_pos hempty, Option.some_bind,
      direct_fir_process, if_neg hm', if_neg hco, if_pos hempty]
    rfl
  · rw [direct_fir_process, if_neg hn0, if_neg hco, if_neg hempty,
      direct_fir_process, if_neg hn', if_neg hco, if_neg hempty,
      processLoop_split n m fir]
    rcases hact : fir.sb_active with _ | a
    · have hknone : _direct_fir_process_sample fir = none := by
        simp only [_direct_fir_process_sample, hact]
      obtain ⟨j, rfl⟩ : ∃ j, n = j + 1 := ⟨n - 1, by omega⟩
      rw [processLoop_succ_none hknone j]
      rfl
    · rcases hp : processLoop n fir with _ | p
      · rfl
      · obtain ⟨-, hcoeq, -, hactp⟩ := processLoop_spec n fir p.1 p.2 (by rw [hp])
        have hpact : p.1.sb_active.isSome = true := hactp (by simp [hact])
        have hpco : ¬ p.1.nr_coeffs = 0 := by rw [hcoeq]; exact hco
        have hpempty : ¬ (p.1.sb_active = none ∧ p.1.sb_next = none) := by
          rintro ⟨hx, -⟩
          rw [hx] at hpact
          simp at hpact
        simp only [Option.some_bind, Option.map_some']
        rw [direct_fir_process, if_neg hm', if_neg hpco, if_neg hpempty]
        cases hq : processLoop m p.1 with
        | none => rfl
        | some q => simp

/-- Witness for C8: on the one-tap state `firW8` holding two queued
samples, requesting three outputs in one call equals requesting one and
then two. -/
theorem c8_process_chunking_witness :
    (1 ≤ 1 ∧ 1 ≤ 2) ∧
    direct_fir_process firW8 (1 + 2) =
      (direct_fir_process firW8 1).bind fun p =>
        (direct_fir_process p.1 2).map fun q => (q.1, p.2.1 ++ q.2.1, q.2.2) :=
  ⟨⟨by decide, by decide⟩, c8_process_chunking firW8 1 2 (by decide) (by decide)⟩
